import Mathlib

/-!
The go-qrcode command line front end: the structured-append descriptor parser and main.

A shallow embedding of `qrcode/main.go`.

* Go strings are modelled by their rune sequence (`String` / `List Char`); every
  character class of the descriptor pattern is ASCII, so a byte that is not valid
  UTF-8 (decoded by Go as U+FFFD) behaves like any other non-matching rune.
* `regexp` is modelled by a small backtracking matcher with leftmost-first
  (Perl / Go) priorities and numbered capture groups, for the operators the
  descriptor pattern uses.
* `log.Panicf` is modelled by `Except.error`; the abort carries the source line of
  the `invalidPage` call that raised it (the line a Go stack trace reports).
* `main` is modelled as a function from the parsed flags, the positional arguments,
  the external engine and the operating system's answers to a trace of effects and
  a termination. The answers modelled are those of the PNG output path (`os.Stdout.Write`,
  `os.Create`, `fh.Write`); text written through `fmt` is an event without an answer.
-/

namespace QRCode

/-! ## Regular expressions (the fragment of `regexp/syntax` the pattern needs) -/

/-- Regular expression syntax trees: the operators occurring in the descriptor pattern. -/
inductive Re where
  /-- the empty match -/
  | empty : Re
  /-- a literal character -/
  | lit : Char → Re
  /-- a character class given by inclusive ranges, `[a-bc-d]` -/
  | cls : List (Char × Char) → Re
  /-- concatenation -/
  | seq : Re → Re → Re
  /-- alternation `a|b`, the left alternative preferred -/
  | alt : Re → Re → Re
  /-- greedy option `a?` -/
  | opt : Re → Re
  /-- numbered capture group `(a)` -/
  | group : Nat → Re → Re
  /-- the assertion `^` (without the multi-line flag: beginning of the text) -/
  | bot : Re
  /-- the assertion `$` (without the multi-line flag: end of the text) -/
  | eot : Re

/-- Nested greedy options `(?:r(?:r ...)?)?`, at most `k` copies of `r`. -/
def Re.upTo (r : Re) : Nat → Re
  | 0 => Re.empty
  | k + 1 => Re.opt (Re.seq r (Re.upTo r k))

/-- Bounded greedy repetition `r{n,m}`, expanded the way `regexp/syntax` simplifies it:
`n` copies of `r` followed by nested options for the remaining `m - n`, so that
`x{1,2}` is `x(?:x)?` and `x{0,2}` is `(?:x(?:x)?)?`. -/
def Re.rep (r : Re) : Nat → Nat → Re
  | 0, m => Re.upTo r m
  | n + 1, m => Re.seq r (Re.rep r n (m - 1))

/-- Membership of a character in a class given by inclusive ranges. -/
def inClass (rs : List (Char × Char)) (c : Char) : Bool :=
  rs.any (fun r => decide (r.1.toNat ≤ c.toNat) && decide (c.toNat ≤ r.2.toNat))

/-- Capture registers: the text of each numbered group, empty while unset
(`FindStringSubmatch` reports an unset group as the empty string). -/
abbrev Caps := Nat → List Char

/-- Sets the text of group `i`. -/
def Caps.set (caps : Caps) (i : Nat) (s : List Char) : Caps :=
  fun j => if j = i then s else caps j

/-- One way a (sub)expression can match: the text it consumed, the text left, the captures. -/
structure MatchResult where
  consumed : List Char
  rest : List Char
  caps : Caps

/-- All the ways `r` matches a prefix of `inp`, in the priority order of a backtracking
matcher (greedy operators try the longer match first, alternation the left branch first).
`pos` is the offset of `inp` in the searched text. -/
def Re.run : Re → Nat → List Char → Caps → List MatchResult
  | Re.empty, _, inp, caps => [⟨[], inp, caps⟩]
  | Re.lit x, _, inp, caps =>
    match inp with
    | c :: rest => if c = x then [⟨[c], rest, caps⟩] else []
    | [] => []
  | Re.cls rs, _, inp, caps =>
    match inp with
    | c :: rest => if inClass rs c then [⟨[c], rest, caps⟩] else []
    | [] => []
  | Re.seq a b, pos, inp, caps =>
    (a.run pos inp caps).flatMap (fun r1 =>
      (b.run (pos + r1.consumed.length) r1.rest r1.caps).map (fun r2 =>
        ⟨r1.consumed ++ r2.consumed, r2.rest, r2.caps⟩))
  | Re.alt a b, pos, inp, caps => a.run pos inp caps ++ b.run pos inp caps
  | Re.opt a, pos, inp, caps => a.run pos inp caps ++ [⟨[], inp, caps⟩]
  | Re.group i a, pos, inp, caps =>
    (a.run pos inp caps).map (fun r => ⟨r.consumed, r.rest, r.caps.set i r.consumed⟩)
  | Re.bot, pos, inp, caps => if pos = 0 then [⟨[], inp, caps⟩] else []
  | Re.eot, _, inp, caps =>
    match inp with
    | [] => [⟨[], [], caps⟩]
    | _ :: _ => []

/-- Number of capture groups of an expression (`Regexp.NumSubexp`). -/
def Re.numSubexp : Re → Nat
  | Re.seq a b => max a.numSubexp b.numSubexp
  | Re.alt a b => max a.numSubexp b.numSubexp
  | Re.opt a => a.numSubexp
  | Re.group i a => max i a.numSubexp
  | _ => 0

/-- The leftmost match: the first start offset (from `pos` to the end of the text, both
included) at which the expression matches, with the highest-priority match there. -/
def Re.search (re : Re) : Nat → List Char → Option MatchResult
  | pos, [] => (re.run pos [] (fun _ => [])).head?
  | pos, c :: rest =>
    match (re.run pos (c :: rest) (fun _ => [])).head? with
    | some r => some r
    | none => re.search (pos + 1) rest

/-- `Regexp.FindStringSubmatch`: the text of the leftmost match followed by the text of each
capture group, or the nil slice (length 0) when there is no match. -/
def FindStringSubmatch (re : Re) (s : List Char) : List (List Char) :=
  match re.search 0 s with
  | some r => r.consumed :: (List.range re.numSubexp).map (fun i => r.caps (i + 1))
  | none => []

/-- Class `[1-9]`. -/
def digit19 : Re := Re.cls [('1', '9')]

/-- Class `[0-9]`. -/
def digit09 : Re := Re.cls [('0', '9')]

/-- Class `[0-9a-fA-F]`. -/
def hexDigit : Re := Re.cls [('0', '9'), ('a', 'f'), ('A', 'F')]

/-- Sub-pattern `[1-9][0-9]?` of the two ordinal groups. -/
def ordinalRe : Re := Re.seq digit19 (Re.opt digit09)

/-- Sub-pattern `(?:0x([0-9a-fA-F]{1,2})|([1-9][0-9]{0,2}|0))`. -/
def parityRe : Re :=
  Re.alt
    (Re.seq (Re.lit '0') (Re.seq (Re.lit 'x') (Re.group 3 (hexDigit.rep 1 2))))
    (Re.group 4 (Re.alt (Re.seq digit19 (digit09.rep 0 2)) (Re.lit '0')))

/-- The descriptor pattern of `parsePage`:
`^([1-9][0-9]?)/([1-9][0-9]?):(?:0x([0-9a-fA-F]{1,2})|([1-9][0-9]{0,2}|0))$`. -/
def pageRe : Re :=
  Re.seq Re.bot
    (Re.seq (Re.group 1 ordinalRe)
      (Re.seq (Re.lit '/')
        (Re.seq (Re.group 2 ordinalRe)
          (Re.seq (Re.lit ':')
            (Re.seq parityRe Re.eot)))))

/-! ## `strconv` -/

/-- The error kinds of `strconv.NumError`. -/
inductive NumError where
  | ErrSyntax
  | ErrRange
  | ErrBase
  | ErrBitSize
  deriving DecidableEq, Repr

/-- Function `lower` of `strconv`: `c | ('x' - 'X')`, on the character code. -/
def lower (c : Nat) : Nat := c ||| 0x20

/-- The digit switch of `strconv.ParseUint`: the value of a character as a digit, for
`0`..`9` and for letters of either case (`a` is 10), `none` for any other character. -/
def digitOf (c : Char) : Option Nat :=
  let code := c.toNat
  if '0'.toNat ≤ code ∧ code ≤ '9'.toNat then some (code - '0'.toNat)
  else if 'a'.toNat ≤ lower code ∧ lower code ≤ 'z'.toNat then some (lower code - 'a'.toNat + 10)
  else none

/-- The digit loop of `strconv.ParseUint`: `n` is the value accumulated so far, a 64-bit
unsigned integer. -/
def parseDigits (base cutoff maxVal : Nat) : List Char → Nat → Nat × Option NumError
  | [], n => (n, none)
  | c :: cs, n =>
    match digitOf c with
    | none => (0, some NumError.ErrSyntax)
    | some d =>
      if d ≥ base then (0, some NumError.ErrSyntax)
      else if n ≥ cutoff then (maxVal, some NumError.ErrRange)
      else
        let n0 := (n * base) % 2 ^ 64
        let n1 := (n0 + d) % 2 ^ 64
        if n1 < n0 ∨ n1 > maxVal then (maxVal, some NumError.ErrRange)
        else parseDigits base cutoff maxVal cs n1

/-- `strconv.ParseUint(s, base, bitSize)` for an explicit base 2..36 (base 0, the
prefix-driven base, is not used by the program and is outside this model: it is
reported like any other base outside 2..36). Returns the value and the error. -/
def ParseUint (s : List Char) (base bitSize : Nat) : Nat × Option NumError :=
  if s = [] then (0, some NumError.ErrSyntax)
  else if ¬ (2 ≤ base ∧ base ≤ 36) then (0, some NumError.ErrBase)
  else if bitSize > 64 then (0, some NumError.ErrBitSize)
  else
    let bitSize := if bitSize = 0 then 64 else bitSize
    let cutoff := (2 ^ 64 - 1) / base + 1
    let maxVal := 2 ^ bitSize - 1
    parseDigits base cutoff maxVal s 0

/-- `strconv.ParseInt(s, base, bitSize)`: an optional sign followed by `ParseUint`. -/
def ParseInt (s : List Char) (base bitSize : Nat) : Int × Option NumError :=
  match s with
  | [] => (0, some NumError.ErrSyntax)
  | c :: cs =>
    let neg := decide (c = '-')
    let s1 := if c = '+' ∨ c = '-' then cs else c :: cs
    let (un, err) := ParseUint s1 base bitSize
    if err ≠ none ∧ err ≠ some NumError.ErrRange then (0, err)
    else
      let bitSize := if bitSize = 0 then 64 else bitSize
      let cutoff := 2 ^ (bitSize - 1)
      if ¬ neg ∧ un ≥ cutoff then ((cutoff : Int) - 1, some NumError.ErrRange)
      else if neg ∧ un > cutoff then (-(cutoff : Int), some NumError.ErrRange)
      else (if neg then -(un : Int) else (un : Int), none)

/-- `strconv.Atoi(s)`: documented as `ParseInt(s, 10, 0)` converted to `int` (64 bits). -/
def Atoi (s : List Char) : Int × Option NumError := ParseInt s 10 0

/-! ## `parsePage` -/

/-- Modelled from the spec: the engine's `Page` type (its declaration is in the external
engine package). Three byte fields, in the order of the positional literal in `parsePage`:
the 0-based current index, the 0-based last index, the parity byte. -/
structure Page where
  currentIndex : Nat
  lastIndex : Nat
  parity : Nat
  deriving DecidableEq, Repr

/-- A panic raised through `invalidPage`: the line of `main.go` holding the call, and the
message of `log.Panicf`. -/
structure Abort where
  line : Nat
  msg : String
  deriving DecidableEq, Repr

/-- Decidable equality of results, so that concrete runs can be evaluated. -/
instance instDecidableEqExcept {ε α : Type} [DecidableEq ε] [DecidableEq α] :
    DecidableEq (Except ε α)
  | Except.ok a, Except.ok b =>
    if h : a = b then isTrue (by rw [h]) else isFalse (fun h2 => h (by cases h2; rfl))
  | Except.error a, Except.error b =>
    if h : a = b then isTrue (by rw [h]) else isFalse (fun h2 => h (by cases h2; rfl))
  | Except.ok _, Except.error _ => isFalse (fun h => by cases h)
  | Except.error _, Except.ok _ => isFalse (fun h => by cases h)

/-- `invalidPage(arg)`, called from line `line`: panics with the offending argument. -/
def invalidPage (line : Nat) (arg : String) : Abort :=
  ⟨line, "invalid argument '-a' '" ++ arg ++ "'"⟩

/-- The conversion `byte(v)` of a Go integer. -/
def toByte (v : Int) : Nat := (v % 256).toNat

/-- `parsePage(arg)`: `ok none` is the nil pointer, `error` a panic. -/
def parsePage (arg : String) : Except Abort (Option Page) :=
  if arg.length = 0 then Except.ok none
  else
    let m := FindStringSubmatch pageRe arg.data
    if m.length ≠ 5 then Except.error (invalidPage 98 arg)
    else
      let (current, err) := Atoi (m.getD 1 [])
      if err ≠ none ∨ current < 1 ∨ 16 < current then Except.error (invalidPage 103 arg)
      else
        let (last, err) := Atoi (m.getD 2 [])
        if err ≠ none ∨ last < 1 ∨ 16 < last then Except.error (invalidPage 108 arg)
        else if (m.getD 3 []).length ≠ 0 then
          let (v, err) := ParseInt (m.getD 3 []) 16 64
          if err ≠ none ∨ v < 0 ∨ v > 255 then Except.error (invalidPage 115 arg)
          else Except.ok (some ⟨toByte (current - 1), toByte (last - 1), toByte v⟩)
        else if (m.getD 4 []).length ≠ 0 then
          let (v, err) := ParseInt (m.getD 4 []) 10 64
          if err ≠ none ∨ v < 0 ∨ v > 255 then Except.error (invalidPage 121 arg)
          else Except.ok (some ⟨toByte (current - 1), toByte (last - 1), toByte v⟩)
        else Except.error (invalidPage 126 arg)

/-! ## `main` -/

/-- `strings.Join(elems, sep)`: the first element, then each further element after `sep`. -/
def Join (elems : List String) (sep : String) : String :=
  match elems with
  | [] => ""
  | [e] => e
  | e :: rest => rest.foldl (fun b s => b ++ sep ++ s) e

/-- The values of the command line flags after `flag.Parse()`. -/
structure Flags where
  /-- flag `-o` -/
  outFile : String
  /-- flag `-s` -/
  size : Int
  /-- flag `-t` -/
  textArt : Bool
  /-- flag `-i` -/
  negative : Bool
  /-- flag `-p` -/
  page : String

/-- The engine's recovery levels; `main` always asks for `Highest`. -/
inductive RecoveryLevel where
  | Low
  | Medium
  | High
  | Highest
  deriving DecidableEq, Repr

/-- Modelled from the spec: the symbol object of the external engine, with its two mutable
colour fields; `sym` stands for everything else the engine keeps. -/
structure Symbol (σ κ : Type) where
  ForegroundColor : κ
  BackgroundColor : κ
  sym : σ

/-- Modelled from the spec: the collaborator contract of the external encoding engine
(constructor, text-art rendering, PNG rasterization). -/
structure Engine (σ κ : Type) where
  NewWithPage : String → RecoveryLevel → Option Page → Except String (Symbol σ κ)
  ToString : Symbol σ κ → Bool → String
  PNG : Symbol σ κ → Int → Except String (List Nat)

/-- The outcome of `os.Stdout.Write`. The Go runtime does not hand a broken pipe on file
descriptor 1 back to the caller: it raises SIGPIPE and the process dies inside the write.
Every other failure (a full device, say) comes back as an error value. -/
inductive StdoutAnswer where
  | written
  | failed (err : String)
  | brokenPipe
  deriving DecidableEq, Repr

/-- The operating system's answers: the outcome of writing to standard output, the error of
creating a file (else its handle) and the error (if any) of writing to a created file. -/
structure OS where
  stdoutWrite : List Nat → StdoutAnswer
  create : String → Except String Nat
  fileWrite : Nat → List Nat → Option String

/-- Observable steps of a run of `main`: output, calls of `parsePage` and of the engine,
file operations. Write events carry the error the operating system answered. -/
inductive Event where
  /-- `flag.Usage()`: the usage text on the error stream -/
  | usage
  /-- `fmt.Fprintf(os.Stderr, ...)` -/
  | stderr (text : String)
  /-- the call `parsePage(*page)` -/
  | parsePage (arg : String)
  /-- the call `qrcode.NewWithPage(content, level, page)` -/
  | newWithPage (content : String) (level : RecoveryLevel) (page : Option Page)
  /-- the call `q.ToString(inverse)` -/
  | toString (inverse : Bool)
  /-- `fmt.Println(art)`: the text and a newline on standard output -/
  | println (art : String)
  /-- the call `q.PNG(size)` -/
  | png (size : Int)
  /-- `os.Stdout.Write(png)` -/
  | stdoutWrite (bytes : List Nat) (answer : StdoutAnswer)
  /-- `os.Create(name)` -/
  | create (name : String) (err : Option String)
  /-- `fh.Write(png)` -/
  | fileWrite (bytes : List Nat) (err : Option String)
  /-- the deferred `fh.Close()` -/
  | fileClose
  deriving DecidableEq, Repr

/-- How a run ends: `main` returns, `os.Exit(code)`, a panic, or death by a signal. -/
inductive Termination where
  | returned
  | exit (code : Nat)
  | panicked (a : Abort)
  | killed (signal : Nat)
  deriving DecidableEq, Repr

/-- The number of SIGPIPE. -/
def SIGPIPE : Nat := 13

/-- The exit status of the process: 0 when `main` returns, the argument of `os.Exit`,
2 after an unrecovered panic, 128 plus the signal number (as a shell reports it) after
death by a signal. -/
def Termination.status : Termination → Nat
  | Termination.returned => 0
  | Termination.exit code => code
  | Termination.panicked _ => 2
  | Termination.killed signal => 128 + signal

/-- A run: its events in order and how it ended. -/
structure Run where
  trace : List Event
  term : Termination
  deriving DecidableEq, Repr

/-- Events `es` followed by run `r`. -/
def Run.after (es : List Event) (r : Run) : Run := ⟨es ++ r.trace, r.term⟩

/-- `checkError(err)` followed by the rest `k` of the program: a non-nil error is printed
with a newline on the error stream and the process exits with status 1. -/
def checkError (err : Option String) (k : Run) : Run :=
  match err with
  | some e => ⟨[Event.stderr (e ++ "\n")], Termination.exit 1⟩
  | none => k

/-- Function `main` after `flag.Parse()`: `f` holds the flag values and `args` is
`flag.Args()`. -/
def main {σ κ : Type} (E : Engine σ κ) (os : OS) (f : Flags) (args : List String) : Run :=
  let rest : Run :=
    let content := Join args " "
    match parsePage f.page with
    | Except.error a => ⟨[Event.parsePage f.page], Termination.panicked a⟩
    | Except.ok page =>
      Run.after [Event.parsePage f.page, Event.newWithPage content RecoveryLevel.Highest page] <|
      match E.NewWithPage content RecoveryLevel.Highest page with
      | Except.error e => checkError (some e) ⟨[], Termination.returned⟩
      | Except.ok q =>
        checkError none <|
        if f.textArt then
          ⟨[Event.toString f.negative, Event.println (E.ToString q f.negative)],
            Termination.returned⟩
        else
          let q : Symbol σ κ :=
            if f.negative then ⟨q.BackgroundColor, q.ForegroundColor, q.sym⟩ else q
          Run.after [Event.png f.size] <|
          match E.PNG q f.size with
          | Except.error e => checkError (some e) ⟨[], Termination.returned⟩
          | Except.ok png =>
            checkError none <|
            if f.outFile = "" then
              ⟨[Event.stdoutWrite png (os.stdoutWrite png)],
                if os.stdoutWrite png = StdoutAnswer.brokenPipe then Termination.killed SIGPIPE
                else Termination.returned⟩
            else
              match os.create (f.outFile ++ ".png") with
              | Except.error e =>
                Run.after [Event.create (f.outFile ++ ".png") (some e)] <|
                checkError (some e) ⟨[], Termination.returned⟩
              | Except.ok fh =>
                Run.after [Event.create (f.outFile ++ ".png") none] <|
                checkError none
                  ⟨[Event.fileWrite png (os.fileWrite fh png), Event.fileClose],
                    Termination.returned⟩
  if args.length = 0 then
    Run.after [Event.usage] (checkError (some "Error: no content given") rest)
  else rest

/-! ## The descriptor grammar and its values, as the specification words them -/

/-- A decimal digit `1`..`9`. -/
def isDigit19 (c : Char) : Bool := decide ('1'.toNat ≤ c.toNat ∧ c.toNat ≤ '9'.toNat)

/-- A decimal digit `0`..`9`. -/
def isDigit09 (c : Char) : Bool := decide ('0'.toNat ≤ c.toNat ∧ c.toNat ≤ '9'.toNat)

/-- A hexadecimal digit of either case. -/
def isHexDigit (c : Char) : Bool :=
  isDigit09 c || decide ('a'.toNat ≤ c.toNat ∧ c.toNat ≤ 'f'.toNat)
    || decide ('A'.toNat ≤ c.toNat ∧ c.toNat ≤ 'F'.toNat)

/-- Specification of `current` and `last`: a decimal integer written with 1 or 2 digits and
no leading zero. -/
def isOrdinalLit : List Char → Bool
  | [] => false
  | a :: ds => isDigit19 a && decide (ds.length ≤ 1) && ds.all isDigit09

/-- Specification of a hexadecimal parity after its `0x` prefix: 1 or 2 hex digits. -/
def isHexLit (hs : List Char) : Bool :=
  decide (1 ≤ hs.length ∧ hs.length ≤ 2) && hs.all isHexDigit

/-- Specification of a decimal parity: exactly `0`, or a non-zero number of at most 3 digits
with no leading zero. -/
def isDecLit : List Char → Bool
  | [] => false
  | a :: ds => (decide (a = '0') && ds.isEmpty)
      || (isDigit19 a && decide (ds.length ≤ 2) && ds.all isDigit09)

/-- Specification of the parity field: `0x` and a hex literal, or a decimal literal. -/
def isParityLit (ps : List Char) : Bool :=
  (decide (ps.take 2 = ['0', 'x']) && isHexLit (ps.drop 2)) || isDecLit ps

/-- The string is `<current>/<last>:<parity>` with these three fields. -/
def IsDescriptor (s cur last par : List Char) : Prop :=
  s = cur ++ '/' :: (last ++ ':' :: par)
    ∧ isOrdinalLit cur = true ∧ isOrdinalLit last = true ∧ isParityLit par = true

/-- Whether given fields make up a descriptor can be evaluated. -/
instance instDecidableIsDescriptor (s cur last par : List Char) :
    Decidable (IsDescriptor s cur last par) := by
  unfold IsDescriptor; infer_instance

/-- The string fully matches the descriptor grammar. -/
def MatchesGrammar (s : List Char) : Prop := ∃ cur last par, IsDescriptor s cur last par

/-- Value of a decimal literal. -/
def decValue (ds : List Char) : Nat :=
  ds.foldl (fun n c => 10 * n + (c.toNat - '0'.toNat)) 0

/-- Value of a hexadecimal digit of either case. -/
def hexDigitValue (c : Char) : Nat :=
  if isDigit09 c then c.toNat - '0'.toNat
  else if 'a'.toNat ≤ c.toNat then c.toNat - 'a'.toNat + 10
  else c.toNat - 'A'.toNat + 10

/-- Value of a hexadecimal literal (without the prefix). -/
def hexValue (hs : List Char) : Nat :=
  hs.foldl (fun n c => 16 * n + hexDigitValue c) 0

/-- Value of the parity field. -/
def parityValue (ps : List Char) : Nat :=
  if ps.take 2 = ['0', 'x'] then hexValue (ps.drop 2) else decValue ps

/-- Specification of how a parity `p` is written: its decimal rendering (no leading zero),
or `0x` and a hex literal of value `p`. -/
def WritesParity (ps : List Char) (p : Nat) : Prop :=
  ps = (Nat.repr p).data ∨ ∃ hs, isHexLit hs = true ∧ hexValue hs = p ∧ ps = '0' :: 'x' :: hs

/-- The hex-parity capture expected for a parity field: the digits after `0x`, else empty. -/
def hexPart (ps : List Char) : List Char :=
  if ps.take 2 = ['0', 'x'] then ps.drop 2 else []

/-- The decimal-parity capture expected for a parity field: the field itself unless it is
hexadecimal. -/
def decPart (ps : List Char) : List Char :=
  if ps.take 2 = ['0', 'x'] then [] else ps

/-- Textbook semantics of the expressions: `Lang re pos w rest` says that `re` matches the
text `w` found at offset `pos` and followed by `rest`. -/
def Lang : Re → Nat → List Char → List Char → Prop
  | Re.empty, _, w, _ => w = []
  | Re.lit x, _, w, _ => w = [x]
  | Re.cls rs, _, w, _ => ∃ c, inClass rs c = true ∧ w = [c]
  | Re.seq a b, pos, w, rest =>
    ∃ u v, w = u ++ v ∧ Lang a pos u (v ++ rest) ∧ Lang b (pos + u.length) v rest
  | Re.alt a b, pos, w, rest => Lang a pos w rest ∨ Lang b pos w rest
  | Re.opt a, pos, w, rest => Lang a pos w rest ∨ w = []
  | Re.group _ a, pos, w, rest => Lang a pos w rest
  | Re.bot, pos, w, _ => w = [] ∧ pos = 0
  | Re.eot, _, w, rest => w = [] ∧ rest = []

/-- Specification of the argument joining: the arguments in order, one space between each
consecutive pair. -/
def joinWithSpaces : List String → String
  | [] => ""
  | [a] => a
  | a :: b :: rest => a ++ " " ++ joinWithSpaces (b :: rest)

/-! ## Sample collaborators, for evaluating concrete runs -/

/-- A sample engine: it encodes every content, renders a fixed text art and rasterizes to
three bytes (foreground colour, background colour, size). -/
def sampleEngine : Engine Unit Nat where
  NewWithPage := fun _ _ _ => Except.ok ⟨0, 255, ()⟩
  ToString := fun _ inverse => if inverse then "# #" else " # "
  PNG := fun q size => Except.ok [q.ForegroundColor, q.BackgroundColor, size.toNat]

/-- A sample engine that records what it is given: the symbol keeps the content, the level
and the page of the construction, and the text art is the content. -/
def recordingEngine : Engine (String × RecoveryLevel × Option Page) Nat where
  NewWithPage := fun content level page => Except.ok ⟨0, 255, (content, level, page)⟩
  ToString := fun q _ => q.sym.1
  PNG := fun _ _ => Except.error "no rasterizer"

/-- A sample operating system on which every write returns an error (standard output is a
full device, as under `> /dev/full`), and the creation of a file under `ro/` is refused. -/
def failingOS : OS where
  stdoutWrite := fun _ => StdoutAnswer.failed "write /dev/stdout: no space left on device"
  create := fun name =>
    if name = "ro/out.png" then Except.error "open ro/out.png: permission denied"
    else Except.ok 3
  fileWrite := fun _ _ => some "write out.png: no space left on device"

/-- A sample operating system whose standard output is a pipe with no reader. -/
def closedPipeOS : OS where
  stdoutWrite := fun _ => StdoutAnswer.brokenPipe
  create := fun _ => Except.ok 3
  fileWrite := fun _ _ => none

/-- The events of the PNG output path: rasterization, writing bytes, file operations. -/
def Event.onPngPath : Event → Bool
  | Event.png _ => true
  | Event.stdoutWrite _ _ => true
  | Event.create _ _ => true
  | Event.fileWrite _ _ => true
  | Event.fileClose => true
  | _ => false

/-! ## The matcher against the textbook semantics -/
theorem run_sound (re : Re) : ∀ (pos : Nat) (inp : List Char) (caps : Caps) (r : MatchResult),
    r ∈ re.run pos inp caps → inp = r.consumed ++ r.rest ∧ Lang re pos r.consumed r.rest := by
  induction re with
  | empty => intro pos inp caps r h; simp [Re.run] at h; subst h; simp [Lang]
  | lit x =>
    intro pos inp caps r h
    cases inp with
    | nil => simp [Re.run] at h
    | cons c rest =>
      simp only [Re.run] at h
      split at h
      · simp at h; subst h; simp_all [Lang]
      · simp at h
  | cls rs =>
    intro pos inp caps r h
    cases inp with
    | nil => simp [Re.run] at h
    | cons c rest =>
      simp only [Re.run] at h
      split at h
      · simp at h; subst h; simp_all [Lang]
      · simp at h
  | seq a b iha ihb =>
    intro pos inp caps r h
    simp only [Re.run, List.mem_flatMap, List.mem_map] at h
    obtain ⟨r1, h1, r2, h2, rfl⟩ := h
    obtain ⟨e1, l1⟩ := iha _ _ _ _ h1
    obtain ⟨e2, l2⟩ := ihb _ _ _ _ h2
    refine ⟨by simp [e1, e2], ?_⟩
    refine ⟨r1.consumed, r2.consumed, rfl, ?_, l2⟩
    rw [← e2]; exact l1
  | alt a b iha ihb =>
    intro pos inp caps r h
    simp only [Re.run, List.mem_append] at h
    rcases h with h | h
    · exact ⟨(iha _ _ _ _ h).1, Or.inl (iha _ _ _ _ h).2⟩
    · exact ⟨(ihb _ _ _ _ h).1, Or.inr (ihb _ _ _ _ h).2⟩
  | opt a iha =>
    intro pos inp caps r h
    simp only [Re.run, List.mem_append, List.mem_singleton] at h
    rcases h with h | h
    · exact ⟨(iha _ _ _ _ h).1, Or.inl (iha _ _ _ _ h).2⟩
    · subst h; simp [Lang]
  | group i a iha =>
    intro pos inp caps r h
    simp only [Re.run, List.mem_map] at h
    obtain ⟨r1, h1, rfl⟩ := h
    exact iha pos inp caps r1 h1
  | bot =>
    intro pos inp caps r h
    simp only [Re.run] at h
    split at h
    · simp at h; subst h; simp_all [Lang]
    · simp at h
  | eot =>
    intro pos inp caps r h
    cases inp with
    | nil => simp [Re.run] at h; subst h; simp [Lang]
    | cons c rest => simp [Re.run] at h

theorem inClass_digit19 (c : Char) : inClass [('1', '9')] c = isDigit19 c := by
  simp [inClass, isDigit19]
theorem inClass_digit09 (c : Char) : inClass [('0', '9')] c = isDigit09 c := by
  simp [inClass, isDigit09]
theorem inClass_hex (c : Char) : inClass [('0', '9'), ('a', 'f'), ('A', 'F')] c = isHexDigit c := by
  simp [inClass, isHexDigit, isDigit09, Bool.or_assoc]

theorem isDigit19_zero : isDigit19 '0' = false := by decide
theorem isDigit09_x : isDigit09 'x' = false := by decide
theorem isDigit09_slash : isDigit09 '/' = false := by decide
theorem isDigit09_colon : isDigit09 ':' = false := by decide
theorem ne_zero_of_isDigit19 {c : Char} (h : isDigit19 c = true) : c ≠ '0' := by
  rintro rfl; simp [isDigit19_zero] at h
theorem ne_x_of_isDigit09 {c : Char} (h : isDigit09 c = true) : c ≠ 'x' := by
  rintro rfl; simp [isDigit09_x] at h

theorem lang_ordinal (pos : Nat) (w rest : List Char) (h : Lang ordinalRe pos w rest) :
    isOrdinalLit w = true := by
  simp only [Lang, ordinalRe, digit19, digit09, inClass_digit19, inClass_digit09] at h
  obtain ⟨u, v, rfl, ⟨a, ha, rfl⟩, ⟨b, hb, rfl⟩ | rfl⟩ := h <;> simp [isOrdinalLit, ha, *]

theorem lang_parity (pos : Nat) (w rest : List Char) (h : Lang parityRe pos w rest) :
    isParityLit w = true := by
  simp only [Lang, parityRe, Re.rep, Re.upTo, hexDigit, digit19, digit09, inClass_digit19, inClass_digit09, inClass_hex] at h
  rcases h with ⟨u, v, rfl, rfl, u2, v2, rfl, rfl, u3, v3, rfl, ⟨a, ha, rfl⟩, ⟨u4, v4, rfl, ⟨b, hb, rfl⟩, rfl⟩ | rfl⟩ |
    ⟨u, v, rfl, ⟨a, ha, rfl⟩, ⟨u2, v2, rfl, ⟨b, hb, rfl⟩, ⟨u3, v3, rfl, ⟨c, hc, rfl⟩, rfl⟩ | rfl⟩ | rfl⟩ | rfl
  all_goals simp [isParityLit, isHexLit, isDecLit, *]

theorem lang_page (pos : Nat) (w rest : List Char) (h : Lang pageRe pos w rest) :
    pos = 0 ∧ rest = [] ∧ MatchesGrammar w := by
  obtain ⟨u0, v0, rfl, ⟨rfl, rfl⟩, u1, v1, rfl, h1, u2, v2, rfl, h2, u3, v3, rfl, h3,
    u4, v4, rfl, h4, u5, v5, rfl, h5, rfl, rfl⟩ := h
  have e2 : u2 = ['/'] := h2
  have e4 : u4 = [':'] := h4
  subst e2 e4
  refine ⟨rfl, rfl, u1, u3, u5, ?_, lang_ordinal _ u1 _ h1, lang_ordinal _ u3 _ h3,
    lang_parity _ u5 _ h5⟩
  simp

theorem isOrdinalLit_shape {cs : List Char} (h : isOrdinalLit cs = true) :
    (∃ a, cs = [a] ∧ isDigit19 a = true) ∨
      (∃ a b, cs = [a, b] ∧ isDigit19 a = true ∧ isDigit09 b = true) := by
  rcases cs with _ | ⟨a, _ | ⟨b, _ | ⟨c, rest⟩⟩⟩ <;> simp_all [isOrdinalLit]
  exact ⟨a, b, ⟨rfl, rfl⟩, h⟩

theorem isHexLit_shape {hs : List Char} (h : isHexLit hs = true) :
    (∃ a, hs = [a] ∧ isHexDigit a = true) ∨
      (∃ a b, hs = [a, b] ∧ isHexDigit a = true ∧ isHexDigit b = true) := by
  rcases hs with _ | ⟨a, _ | ⟨b, _ | ⟨c, rest⟩⟩⟩ <;> simp_all [isHexLit]
  exact ⟨a, b, ⟨rfl, rfl⟩, h⟩

theorem isDecLit_shape {ds : List Char} (h : isDecLit ds = true) :
    ds = ['0'] ∨ (∃ a, ds = [a] ∧ isDigit19 a = true) ∨
      (∃ a b, ds = [a, b] ∧ isDigit19 a = true ∧ isDigit09 b = true) ∨
      (∃ a b c, ds = [a, b, c] ∧ isDigit19 a = true ∧ isDigit09 b = true ∧ isDigit09 c = true) := by
  rcases ds with _ | ⟨a, _ | ⟨b, _ | ⟨c, _ | ⟨d, rest⟩⟩⟩⟩ <;> simp_all [isDecLit]
  · exact ⟨a, b, ⟨rfl, rfl⟩, h⟩
  · exact ⟨a, b, c, ⟨rfl, rfl, rfl⟩, h⟩

theorem run_ordinal_sep (i pos : Nat) (x : Char) (hx : isDigit09 x = false) (R : Re)
    (cs rest : List Char) (caps : Caps) (hcs : isOrdinalLit cs = true) :
    (Re.seq (Re.group i ordinalRe) (Re.seq (Re.lit x) R)).run pos (cs ++ x :: rest) caps =
      (R.run (pos + cs.length + 1) rest (caps.set i cs)).map
        (fun r => ⟨cs ++ x :: r.consumed, r.rest, r.caps⟩) := by
  rcases isOrdinalLit_shape hcs with ⟨a, rfl, ha⟩ | ⟨a, b, rfl, ha, hb⟩
  · simp [Re.run, ordinalRe, digit19, digit09, inClass_digit19, inClass_digit09, ha, hx]
  · have hbx : b ≠ x := by rintro rfl; simp [hx] at hb
    simp [Re.run, ordinalRe, digit19, digit09, inClass_digit19, inClass_digit09, ha, hb, hx, hbx]

theorem run_parity_hex (pos : Nat) (hs : List Char) (caps : Caps) (h : isHexLit hs = true) :
    (Re.seq parityRe Re.eot).run pos ('0' :: 'x' :: hs) caps =
      [⟨'0' :: 'x' :: hs, [], caps.set 3 hs⟩] := by
  rcases isHexLit_shape h with ⟨a, rfl, ha⟩ | ⟨a, b, rfl, ha, hb⟩
  · simp [Re.run, parityRe, Re.rep, Re.upTo, hexDigit, digit19, digit09, inClass_digit19,
      inClass_digit09, inClass_hex, isDigit19_zero, ha]
  · simp [Re.run, parityRe, Re.rep, Re.upTo, hexDigit, digit19, digit09, inClass_digit19,
      inClass_digit09, inClass_hex, isDigit19_zero, ha, hb]

theorem run_parity_dec (pos : Nat) (ds : List Char) (caps : Caps) (h : isDecLit ds = true) :
    (Re.seq parityRe Re.eot).run pos ds caps = [⟨ds, [], caps.set 4 ds⟩] := by
  rcases isDecLit_shape h with rfl | ⟨a, rfl, ha⟩ | ⟨a, b, rfl, ha, hb⟩ | ⟨a, b, c, rfl, ha, hb, hc⟩
  · simp [Re.run, parityRe, Re.rep, Re.upTo, hexDigit, digit19, digit09, inClass_digit19,
      inClass_digit09, inClass_hex, isDigit19_zero]
  · have h0 := ne_zero_of_isDigit19 ha
    simp [Re.run, parityRe, Re.rep, Re.upTo, hexDigit, digit19, digit09, inClass_digit19,
      inClass_digit09, inClass_hex, ha, h0]
  · have h0 := ne_zero_of_isDigit19 ha
    simp [Re.run, parityRe, Re.rep, Re.upTo, hexDigit, digit19, digit09, inClass_digit19,
      inClass_digit09, inClass_hex, ha, hb, h0]
  · have h0 := ne_zero_of_isDigit19 ha
    simp [Re.run, parityRe, Re.rep, Re.upTo, hexDigit, digit19, digit09, inClass_digit19,
      inClass_digit09, inClass_hex, ha, hb, hc, h0]

theorem isParityLit_cases {ps : List Char} (h : isParityLit ps = true) :
    (∃ hs, ps = '0' :: 'x' :: hs ∧ isHexLit hs = true) ∨
      (ps.take 2 ≠ ['0', 'x'] ∧ isDecLit ps = true) := by
  by_cases hp : ps.take 2 = ['0', 'x']
  · left
    rcases ps with _ | ⟨a, _ | ⟨b, hs⟩⟩
    · simp at hp
    · simp at hp
    · simp at hp
      obtain ⟨rfl, rfl⟩ := hp
      refine ⟨hs, rfl, ?_⟩
      simpa [isParityLit, isDecLit, isDigit19_zero] using h
  · right
    refine ⟨hp, ?_⟩
    simpa [isParityLit, hp] using h

theorem run_bot_seq (R : Re) (pos : Nat) (inp : List Char) (caps : Caps) :
    (Re.seq Re.bot R).run pos inp caps = if pos = 0 then R.run pos inp caps else [] := by
  by_cases h : pos = 0 <;> simp [Re.run, h]

theorem run_page_parity (pos : Nat) (ps : List Char) (caps : Caps) (h : isParityLit ps = true) :
    (Re.seq parityRe Re.eot).run pos ps caps =
      [⟨ps, [], if ps.take 2 = ['0', 'x'] then caps.set 3 (hexPart ps) else caps.set 4 (decPart ps)⟩] := by
  rcases isParityLit_cases h with ⟨hs, rfl, hh⟩ | ⟨hp, hd⟩
  · simp [run_parity_hex _ _ _ hh, hexPart]
  · simp [run_parity_dec _ _ _ hd, hp, decPart]

theorem run_page (cs ls ps : List Char) (caps : Caps) (hc : isOrdinalLit cs = true)
    (hl : isOrdinalLit ls = true) (hp : isParityLit ps = true) :
    pageRe.run 0 (cs ++ '/' :: (ls ++ ':' :: ps)) caps =
      [⟨cs ++ '/' :: (ls ++ ':' :: ps), [],
        if ps.take 2 = ['0', 'x'] then ((caps.set 1 cs).set 2 ls).set 3 (hexPart ps)
        else ((caps.set 1 cs).set 2 ls).set 4 (decPart ps)⟩] := by
  rw [pageRe, run_bot_seq, if_pos rfl, run_ordinal_sep 1 0 '/' isDigit09_slash _ cs _ caps hc,
    run_ordinal_sep 2 _ ':' isDigit09_colon _ ls _ _ hl, run_page_parity _ ps _ hp]
  simp

theorem search_page_pos (pos : Nat) (inp : List Char) :
    pageRe.search (pos + 1) inp = none := by
  induction inp generalizing pos with
  | nil => simp [Re.search, pageRe, run_bot_seq]
  | cons c rest ih => simp [Re.search, pageRe, run_bot_seq]; exact ih (pos + 1)

theorem numSubexp_page : pageRe.numSubexp = 4 := by decide

theorem search_zero (s : List Char) :
    pageRe.search 0 s = (pageRe.run 0 s (fun _ => [])).head? := by
  cases s with
  | nil => simp [Re.search]
  | cons c rest =>
    simp only [Re.search]
    cases (pageRe.run 0 (c :: rest) (fun _ => [])).head? with
    | none => simp [search_page_pos]
    | some r => rfl

theorem find_of_descriptor {s cs ls ps : List Char} (h : IsDescriptor s cs ls ps) :
    FindStringSubmatch pageRe s = [s, cs, ls, hexPart ps, decPart ps] := by
  obtain ⟨rfl, hc, hl, hp⟩ := h
  unfold FindStringSubmatch
  rw [numSubexp_page, search_zero, run_page cs ls ps _ hc hl hp]
  by_cases h2 : ps.take 2 = ['0', 'x'] <;>
    simp [List.range, List.range.loop, Caps.set, h2, hexPart, decPart]

theorem find_nil_or_matches (s : List Char) :
    FindStringSubmatch pageRe s = [] ∨ MatchesGrammar s := by
  unfold FindStringSubmatch
  rw [search_zero]
  cases hr : pageRe.run 0 s (fun _ => []) with
  | nil => left; simp
  | cons r rs =>
    right
    have hmem : r ∈ pageRe.run 0 s (fun _ => []) := by simp [hr]
    obtain ⟨e, hl⟩ := run_sound _ _ _ _ _ hmem
    obtain ⟨-, hrest, hm⟩ := lang_page _ _ _ hl
    rw [e, hrest]; simpa using hm



theorem digitOf_digit {c : Char} (h : isDigit09 c = true) :
    digitOf c = some (c.toNat - 48) := by
  simp [isDigit09] at h
  simp [digitOf, h]

theorem digitOf_hex {c : Char} (h : isHexDigit c = true) :
    digitOf c = some (hexDigitValue c) ∧ hexDigitValue c < 16 := by
  simp only [isHexDigit, isDigit09, Bool.or_eq_true, decide_eq_true_eq, Char.reduceToNat] at h
  simp only [digitOf, hexDigitValue, isDigit09, lower, Char.reduceToNat, decide_eq_true_eq]
  generalize c.toNat = k at h ⊢
  rcases h with (⟨h1, h2⟩ | ⟨h1, h2⟩) | ⟨h1, h2⟩ <;> interval_cases k <;> simp

theorem parseDigits_step (base cutoff maxVal : Nat) (c : Char) (cs : List Char) (n d : Nat)
    (hd : digitOf c = some d) (hb : d < base) (hn : n < cutoff)
    (hv : n * base + d ≤ maxVal) (hm : maxVal < 2 ^ 64) :
    parseDigits base cutoff maxVal (c :: cs) n = parseDigits base cutoff maxVal cs (n * base + d) := by
  have e0 : (n * base) % 2 ^ 64 = n * base := Nat.mod_eq_of_lt (by omega)
  have e1 : (n * base + d) % 2 ^ 64 = n * base + d := Nat.mod_eq_of_lt (by omega)
  simp only [parseDigits, hd, e0, e1]
  rw [if_neg (by omega), if_neg (by omega), if_neg (by omega)]


theorem digit_le {c : Char} (h : isDigit09 c = true) : c.toNat - 48 ≤ 9 := by
  simp [isDigit09] at h; omega

theorem not_sign_of_digitOf {c : Char} {d : Nat} (h : digitOf c = some d) :
    c ≠ '+' ∧ c ≠ '-' := by
  constructor <;> rintro rfl <;> simp [digitOf, lower] at h

theorem parseInt_of_parseUint (s : List Char) (base bitSize un : Nat) (c : Char) (d : Nat)
    (hs : s.head? = some c) (hc : digitOf c = some d)
    (hu : ParseUint s base bitSize = (un, none)) (hb : bitSize = 0 ∨ bitSize = 64)
    (hlt : un < 2 ^ 63) :
    ParseInt s base bitSize = ((un : Int), none) := by
  obtain ⟨hp, hm⟩ := not_sign_of_digitOf hc
  cases s with
  | nil => simp at hs
  | cons c2 cs =>
    simp at hs; subst hs
    simp only [ParseInt, hp, hm, or_self, if_false, hu, decide_False]
    rcases hb with rfl | rfl <;> simp <;> omega

theorem parseUint_dec {ds : List Char} (bitSize : Nat) (hb : bitSize = 0 ∨ bitSize = 64)
    (hne : ds ≠ []) (hlen : ds.length ≤ 3) (hall : ds.all isDigit09 = true) :
    ParseUint ds 10 bitSize = (decValue ds, none) ∧ decValue ds < 1000 := by
  have hbs : (if bitSize = 0 then 64 else bitSize) = 64 := by rcases hb with rfl | rfl <;> simp
  have hgt : ¬ bitSize > 64 := by rcases hb with rfl | rfl <;> simp
  simp only [ParseUint, hne, if_false, hgt, hbs]
  rcases ds with _ | ⟨a, _ | ⟨b, _ | ⟨c, _ | ⟨d, rest⟩⟩⟩⟩
  · simp at hne
  · simp at hall
    have ha := digit_le hall
    rw [parseDigits_step _ _ _ a _ 0 _ (digitOf_digit hall) (by omega) (by norm_num) (by omega) (by norm_num)]
    simp [parseDigits, decValue]; omega
  · simp at hall
    have ha := digit_le hall.1
    have hb := digit_le hall.2
    rw [parseDigits_step _ _ _ a _ 0 _ (digitOf_digit hall.1) (by omega) (by norm_num) (by omega) (by norm_num),
      parseDigits_step _ _ _ b _ _ _ (digitOf_digit hall.2) (by omega) (by norm_num; omega) (by omega) (by norm_num)]
    simp [parseDigits, decValue]; omega
  · simp at hall
    have ha := digit_le hall.1
    have hb := digit_le hall.2.1
    have hc := digit_le hall.2.2
    rw [parseDigits_step _ _ _ a _ 0 _ (digitOf_digit hall.1) (by omega) (by norm_num) (by omega) (by norm_num),
      parseDigits_step _ _ _ b _ _ _ (digitOf_digit hall.2.1) (by omega) (by norm_num; omega) (by omega) (by norm_num),
      parseDigits_step _ _ _ c _ _ _ (digitOf_digit hall.2.2) (by omega) (by norm_num; omega) (by omega) (by norm_num)]
    simp [parseDigits, decValue]; omega
  · simp at hlen


theorem parseUint_hex {hs : List Char} (hh : isHexLit hs = true) :
    ParseUint hs 16 64 = (hexValue hs, none) ∧ hexValue hs ≤ 255 := by
  rcases isHexLit_shape hh with ⟨a, rfl, ha⟩ | ⟨a, b, rfl, ha, hb⟩
  · obtain ⟨ea, la⟩ := digitOf_hex ha
    simp only [ParseUint]
    simp only [List.cons_ne_nil, if_false]
    norm_num
    rw [parseDigits_step _ _ _ a _ 0 _ ea la (by norm_num) (by omega) (by norm_num)]
    simp [parseDigits, hexValue]; omega
  · obtain ⟨ea, la⟩ := digitOf_hex ha
    obtain ⟨eb, lb⟩ := digitOf_hex hb
    simp only [ParseUint]
    simp only [List.cons_ne_nil, if_false]
    norm_num
    rw [parseDigits_step _ _ _ a _ 0 _ ea la (by norm_num) (by omega) (by norm_num),
      parseDigits_step _ _ _ b _ _ _ eb lb (by omega) (by omega) (by norm_num)]
    simp [parseDigits, hexValue]; omega

theorem isOrdinalLit_digits {cs : List Char} (h : isOrdinalLit cs = true) :
    cs ≠ [] ∧ cs.length ≤ 3 ∧ cs.all isDigit09 = true ∧
      ∃ a d, cs.head? = some a ∧ digitOf a = some d := by
  have h19 : ∀ a, isDigit19 a = true → isDigit09 a = true := by
    intro a ha; simp [isDigit19, isDigit09] at ha ⊢; omega
  rcases isOrdinalLit_shape h with ⟨a, rfl, ha⟩ | ⟨a, b, rfl, ha, hb⟩
  · simp [h19 a ha]; exact ⟨_, digitOf_digit (h19 a ha)⟩
  · simp [h19 a ha, hb]; exact ⟨_, digitOf_digit (h19 a ha)⟩

theorem isDecLit_digits {ds : List Char} (h : isDecLit ds = true) :
    ds ≠ [] ∧ ds.length ≤ 3 ∧ ds.all isDigit09 = true ∧
      ∃ a d, ds.head? = some a ∧ digitOf a = some d := by
  have h19 : ∀ a, isDigit19 a = true → isDigit09 a = true := by
    intro a ha; simp [isDigit19, isDigit09] at ha ⊢; omega
  have h0 : isDigit09 '0' = true := by decide
  rcases isDecLit_shape h with rfl | ⟨a, rfl, ha⟩ | ⟨a, b, rfl, ha, hb⟩ | ⟨a, b, c, rfl, ha, hb, hc⟩
  · simp [h0]; exact ⟨_, digitOf_digit h0⟩
  · simp [h19 a ha]; exact ⟨_, digitOf_digit (h19 a ha)⟩
  · simp [h19 a ha, hb]; exact ⟨_, digitOf_digit (h19 a ha)⟩
  · simp [h19 a ha, hb, hc]; exact ⟨_, digitOf_digit (h19 a ha)⟩

theorem atoi_ordinal {cs : List Char} (h : isOrdinalLit cs = true) :
    Atoi cs = ((decValue cs : Int), none) := by
  obtain ⟨hne, hlen, hall, a, d, hh, hd⟩ := isOrdinalLit_digits h
  obtain ⟨hu, hlt⟩ := parseUint_dec 0 (Or.inl rfl) hne hlen hall
  exact parseInt_of_parseUint cs 10 0 _ a d hh hd hu (Or.inl rfl) (by omega)

theorem parseInt_dec {ds : List Char} (h : isDecLit ds = true) :
    ParseInt ds 10 64 = ((decValue ds : Int), none) := by
  obtain ⟨hne, hlen, hall, a, d, hh, hd⟩ := isDecLit_digits h
  obtain ⟨hu, hlt⟩ := parseUint_dec 64 (Or.inr rfl) hne hlen hall
  exact parseInt_of_parseUint ds 10 64 _ a d hh hd hu (Or.inr rfl) (by omega)

theorem parseInt_hex {hs : List Char} (h : isHexLit hs = true) :
    ParseInt hs 16 64 = ((hexValue hs : Int), none) ∧ hexValue hs ≤ 255 := by
  obtain ⟨hu, hlt⟩ := parseUint_hex h
  rcases isHexLit_shape h with ⟨a, rfl, ha⟩ | ⟨a, b, rfl, ha, hb⟩
  · exact ⟨parseInt_of_parseUint _ 16 64 _ a _ rfl (digitOf_hex ha).1 hu (Or.inr rfl) (by omega), hlt⟩
  · exact ⟨parseInt_of_parseUint _ 16 64 _ a _ rfl (digitOf_hex ha).1 hu (Or.inr rfl) (by omega), hlt⟩

theorem toByte_nat (n : Nat) (h : n ≤ 255) : toByte (n : Int) = n := by
  unfold toByte; omega

theorem toByte_pred (n : Nat) (h1 : 1 ≤ n) (h : n ≤ 256) : toByte ((n : Int) - 1) = n - 1 := by
  unfold toByte; omega


theorem hexPart_decPart_cases {ps : List Char} (hp : isParityLit ps = true) :
    (hexPart ps ≠ [] ∧ decPart ps = [] ∧ isHexLit (hexPart ps) = true ∧
        parityValue ps = hexValue (hexPart ps)) ∨
      (hexPart ps = [] ∧ decPart ps ≠ [] ∧ isDecLit (decPart ps) = true ∧
        parityValue ps = decValue (decPart ps)) := by
  rcases isParityLit_cases hp with ⟨hs, rfl, hh⟩ | ⟨h2, hd⟩
  · left
    have : hs ≠ [] := by rintro rfl; simp [isHexLit] at hh
    simp [hexPart, decPart, parityValue, hh, this]
  · right
    have : ps ≠ [] := by rintro rfl; simp [isDecLit] at hd
    simp [hexPart, decPart, parityValue, h2, hd, this]

theorem ordinal_value_pos {cs : List Char} (h : isOrdinalLit cs = true) : 1 ≤ decValue cs := by
  rcases isOrdinalLit_shape h with ⟨a, rfl, ha⟩ | ⟨a, b, rfl, ha, hb⟩ <;>
    simp [isDigit19, isDigit09] at ha <;> simp [decValue] <;> omega

theorem parsePage_of_descriptor {arg : String} {cs ls ps : List Char}
    (h : IsDescriptor arg.data cs ls ps) :
    parsePage arg =
      if 16 < decValue cs then Except.error (invalidPage 103 arg)
      else if 16 < decValue ls then Except.error (invalidPage 108 arg)
      else if 255 < parityValue ps then Except.error (invalidPage 121 arg)
      else Except.ok (some ⟨decValue cs - 1, decValue ls - 1, parityValue ps⟩) := by
  have hlen : arg.length ≠ 0 := by
    have := h.1
    simp [String.length, this]
  obtain ⟨-, hc, hl, hp⟩ := id h
  have hc1 := ordinal_value_pos hc
  have hl1 := ordinal_value_pos hl
  simp only [parsePage, hlen, if_false, find_of_descriptor h, List.length_cons, List.length_nil]
  simp only [List.getD_cons_succ, List.getD_cons_zero, atoi_ordinal hc, atoi_ordinal hl]
  by_cases h16 : 16 < decValue cs
  · simp [h16]
  by_cases h16l : 16 < decValue ls
  · simp [h16, h16l]; omega
  have hc0 : decValue cs ≠ 0 := by omega
  have hl0 : decValue ls ≠ 0 := by omega
  rcases hexPart_decPart_cases hp with ⟨hne, hde, hhex, hv⟩ | ⟨hhe, hne, hdec, hv⟩
  · obtain ⟨e, hle⟩ := parseInt_hex hhex
    have hne2 : (hexPart ps).length ≠ 0 := by simpa using hne
    have hle2 : ¬ 255 < hexValue (hexPart ps) := by omega
    simp [h16, h16l, hne2, e, hv, hc0, hl0, hle2, toByte_nat _ hle, toByte_pred _ hc1 (by omega),
      toByte_pred _ hl1 (by omega)]
  · have e := parseInt_dec hdec
    have hne2 : (decPart ps).length ≠ 0 := by simpa using hne
    by_cases h255 : 255 < decValue (decPart ps)
    · simp [h16, h16l, hhe, hne2, e, hv, hc0, hl0, h255]
    · simp [h16, h16l, hhe, hne2, e, hv, hc0, hl0, h255,
        toByte_nat _ (by omega : decValue (decPart ps) ≤ 255), toByte_pred _ hc1 (by omega),
        toByte_pred _ hl1 (by omega)]

/-! ## `parsePage` and `main` against the specification -/

theorem repr_ordinal (c : Nat) (h1 : 1 ≤ c) (h16 : c ≤ 16) :
    isOrdinalLit (Nat.repr c).data = true ∧ decValue (Nat.repr c).data = c := by
  interval_cases c <;> decide

theorem repr_parity (p : Nat) (h : p ≤ 255) :
    isDecLit (Nat.repr p).data = true ∧ decValue (Nat.repr p).data = p := by
  interval_cases p <;> decide

theorem isDecLit_not_hex {ds : List Char} (h : isDecLit ds = true) :
    ds.take 2 ≠ ['0', 'x'] := by
  rcases isDecLit_shape h with rfl | ⟨a, rfl, ha⟩ | ⟨a, b, rfl, ha, hb⟩ | ⟨a, b, c, rfl, ha, hb, hc⟩
  · decide
  · simp
  · have := ne_x_of_isDigit09 hb; simp [this]
  · have := ne_x_of_isDigit09 hb; simp [this]

theorem writesParity_lit {ps : List Char} {p : Nat} (hp : p ≤ 255) (h : WritesParity ps p) :
    isParityLit ps = true ∧ parityValue ps = p := by
  rcases h with rfl | ⟨hs, hh, rfl, rfl⟩
  · obtain ⟨hd, hv⟩ := repr_parity p hp
    simp [isParityLit, hd, parityValue, isDecLit_not_hex hd, hv]
  · simp [isParityLit, hh, parityValue]

theorem parsePage_written (c l p : Nat) (ps : String) (hc1 : 1 ≤ c) (hc : c ≤ 16)
    (hl1 : 1 ≤ l) (hl : l ≤ 16) (hp : p ≤ 255) (hps : WritesParity ps.data p) :
    parsePage (Nat.repr c ++ "/" ++ Nat.repr l ++ ":" ++ ps) =
      Except.ok (some ⟨c - 1, l - 1, p⟩) := by
  obtain ⟨oc, vc⟩ := repr_ordinal c hc1 hc
  obtain ⟨ol, vl⟩ := repr_ordinal l hl1 hl
  obtain ⟨op, vp⟩ := writesParity_lit hp hps
  have hd : IsDescriptor (Nat.repr c ++ "/" ++ Nat.repr l ++ ":" ++ ps).data
      (Nat.repr c).data (Nat.repr l).data ps.data := by
    refine ⟨?_, oc, ol, op⟩
    simp [String.data_append]
  rw [parsePage_of_descriptor hd, vc, vl, vp]
  simp [Nat.not_lt.mpr hc, Nat.not_lt.mpr hl, Nat.not_lt.mpr hp]


theorem length_ne_zero (arg : String) (h : arg ≠ "") : arg.length ≠ 0 := by
  intro h0
  apply h
  cases arg with
  | mk d =>
    have hd : d = [] := by simpa [String.length] using h0
    subst hd
    rfl

theorem matches_iff_lang (s : List Char) : MatchesGrammar s ↔ Lang pageRe 0 s [] := by
  constructor
  · rintro ⟨cur, last, par, hd⟩
    obtain ⟨rfl, hc, hl, hp⟩ := id hd
    have key : ∀ r ∈ pageRe.run 0 (cur ++ '/' :: (last ++ ':' :: par)) (fun _ => []),
        Lang pageRe 0 r.consumed r.rest := fun r hr => (run_sound _ _ _ _ _ hr).2
    rw [run_page cur last par (fun _ => []) hc hl hp] at key
    simpa using key
  · intro h
    exact (lang_page _ _ _ h).2.2

theorem not_lang_of_find_nil {s : List Char} (h : FindStringSubmatch pageRe s = []) :
    ¬ Lang pageRe 0 s [] := by
  intro hl
  obtain ⟨cur, last, par, hd⟩ := (matches_iff_lang s).mpr hl
  rw [find_of_descriptor hd] at h
  simp at h

/-- Claim C1: for `current` and `last` in 1..16 written in decimal and a parity `p` in 0..255
written in decimal or as `0x` and 1 or 2 hex digits of either case, `parsePage` returns,
without aborting, the page `{current - 1, last - 1, p}`. -/
theorem parsePage_valid (current last p : Nat) (parity : String)
    (hc : 1 ≤ current ∧ current ≤ 16) (hl : 1 ≤ last ∧ last ≤ 16) (hp : p ≤ 255)
    (hw : WritesParity parity.data p) :
    parsePage (Nat.repr current ++ "/" ++ Nat.repr last ++ ":" ++ parity) =
      Except.ok (some ⟨current - 1, last - 1, p⟩) :=
  parsePage_written current last p parity hc.1 hc.2 hl.1 hl.2 hp hw

/-- Witness of C1: `2/3:0x11` yields `{1, 2, 17}` and `16/16:0` yields `{15, 15, 0}`. -/
theorem parsePage_valid_witness :
    parsePage "2/3:0x11" = Except.ok (some ⟨1, 2, 17⟩) ∧
      parsePage "16/16:0" = Except.ok (some ⟨15, 15, 0⟩) :=
  ⟨parsePage_valid 2 3 17 "0x11" (by decide) (by decide) (by decide)
      (Or.inr ⟨['1', '1'], by decide, by decide, by decide⟩),
    parsePage_valid 16 16 0 "0" (by decide) (by decide) (by decide) (Or.inl (by decide))⟩

/-- Claim C2: for a non-empty argument, `parsePage` aborts through `invalidPage` exactly when
the argument is not in the language of the anchored descriptor pattern, or is
`<current>/<last>:<parity>` with `current` or `last` outside 1..16 or the parity outside
0..255. -/
theorem parsePage_aborts_iff (arg : String) (h : arg ≠ "") :
    (∃ a, parsePage arg = Except.error a) ↔
      (¬ Lang pageRe 0 arg.data [] ∨
        ∃ cur last par, IsDescriptor arg.data cur last par ∧
          (decValue cur < 1 ∨ 16 < decValue cur ∨ decValue last < 1 ∨ 16 < decValue last
            ∨ 255 < parityValue par)) := by
  have hlen : arg.length ≠ 0 := length_ne_zero arg h
  rw [← matches_iff_lang]
  constructor
  · rintro ⟨a, ha⟩
    by_cases hm : MatchesGrammar arg.data
    · right
      obtain ⟨cur, last, par, hd⟩ := hm
      refine ⟨cur, last, par, hd, ?_⟩
      rw [parsePage_of_descriptor hd] at ha
      by_contra hcon
      simp only [not_or, not_lt] at hcon
      obtain ⟨-, h1, -, h2, h3⟩ := hcon
      simp [Nat.not_lt.mpr h1, Nat.not_lt.mpr h2, Nat.not_lt.mpr h3] at ha
    · exact Or.inl hm
  · rintro (hm | ⟨cur, last, par, hd, hr⟩)
    · rcases find_nil_or_matches arg.data with hnil | hmatch
      · exact ⟨invalidPage 98 arg, by simp [parsePage, hlen, hnil]⟩
      · exact absurd hmatch hm
    · rw [parsePage_of_descriptor hd]
      have hc1 := ordinal_value_pos hd.2.1
      have hl1 := ordinal_value_pos hd.2.2.1
      by_cases h1 : 16 < decValue cur
      · exact ⟨invalidPage 103 arg, by simp [h1]⟩
      by_cases h2 : 16 < decValue last
      · exact ⟨invalidPage 108 arg, by simp [h1, h2]⟩
      have h3 : 255 < parityValue par := by omega
      exact ⟨invalidPage 121 arg, by simp [h1, h2, h3]⟩

/-- Witness of C2: the four descriptors the specification lists are rejected. -/
theorem parsePage_aborts_witness :
    (∃ a, parsePage "0/3:5" = Except.error a) ∧ (∃ a, parsePage "2/17:5" = Except.error a)
      ∧ (∃ a, parsePage "2/3:256" = Except.error a)
      ∧ (∃ a, parsePage "2/3:0x1g" = Except.error a) :=
  ⟨(parsePage_aborts_iff "0/3:5" (by decide)).mpr
      (Or.inl (not_lang_of_find_nil (by decide))),
    (parsePage_aborts_iff "2/17:5" (by decide)).mpr
      (Or.inr ⟨['2'], ['1', '7'], ['5'], by decide, by decide⟩),
    (parsePage_aborts_iff "2/3:256" (by decide)).mpr
      (Or.inr ⟨['2'], ['3'], ['2', '5', '6'], by decide, by decide⟩),
    (parsePage_aborts_iff "2/3:0x1g" (by decide)).mpr
      (Or.inl (not_lang_of_find_nil (by decide)))⟩

/-- Claim C3: the empty argument yields the absent descriptor (nil), which is not the
zero-valued page, and it is the only argument that does. -/
theorem parsePage_nil_iff :
    parsePage "" = Except.ok none ∧
      parsePage "" ≠ Except.ok (some ⟨0, 0, 0⟩) ∧
      ∀ arg : String, parsePage arg = Except.ok none → arg = "" := by
  refine ⟨by decide, by decide, ?_⟩
  intro arg h
  by_contra hne
  have hlen : arg.length ≠ 0 := length_ne_zero arg hne
  simp only [parsePage, hlen, if_false] at h
  split_ifs at h <;> simp at h


/-- Claim C4: `parsePage` does not enforce `current ≤ last`: with `current > last`, both in
1..16, and a valid parity, it returns the page `{current - 1, last - 1, p}`, whose current
index is strictly greater than its last index. -/
theorem parsePage_no_order_check (current last p : Nat) (parity : String)
    (hc : 1 ≤ current ∧ current ≤ 16) (hl : 1 ≤ last ∧ last ≤ 16) (hp : p ≤ 255)
    (hw : WritesParity parity.data p) (hgt : last < current) :
    ∃ pg : Page,
      parsePage (Nat.repr current ++ "/" ++ Nat.repr last ++ ":" ++ parity) = Except.ok (some pg)
        ∧ pg = ⟨current - 1, last - 1, p⟩ ∧ pg.lastIndex < pg.currentIndex :=
  ⟨⟨current - 1, last - 1, p⟩,
    parsePage_written current last p parity hc.1 hc.2 hl.1 hl.2 hp hw, rfl,
    by show last - 1 < current - 1; omega⟩

/-- Witness of C4: `10/2:0` yields `{9, 1, 0}`. -/
theorem parsePage_no_order_check_witness :
    ∃ pg : Page, parsePage "10/2:0" = Except.ok (some pg) ∧ pg = ⟨9, 1, 0⟩
      ∧ pg.lastIndex < pg.currentIndex :=
  parsePage_no_order_check 10 2 0 "0" (by decide) (by decide) (by decide)
    (Or.inl (by decide)) (by decide)

/-- Claim C5: with no positional argument, whatever the flags, the engine and the operating
system, `main` prints the usage text and `Error: no content given` on the error stream
and exits with status 1; `parsePage` and `NewWithPage` are never called. -/
theorem main_no_content {σ κ : Type} (E : Engine σ κ) (os : OS) (f : Flags) :
    main E os f [] =
        ⟨[Event.usage, Event.stderr "Error: no content given\n"], Termination.exit 1⟩
      ∧ (main E os f []).term.status = 1
      ∧ ∀ e ∈ (main E os f []).trace,
          (∀ arg, e ≠ Event.parsePage arg) ∧ ∀ c lv pg, e ≠ Event.newWithPage c lv pg := by
  have h : main E os f [] =
      ⟨[Event.usage, Event.stderr "Error: no content given\n"], Termination.exit 1⟩ := by
    simp [main, checkError, Run.after]
  refine ⟨h, by rw [h]; rfl, ?_⟩
  rw [h]
  intro e he
  simp at he
  rcases he with rfl | rfl <;> simp

theorem join_spaces_aux (sep : String) (rest : List String) (a b : String) :
    rest.foldl (fun acc s => acc ++ sep ++ s) (a ++ b) =
      a ++ rest.foldl (fun acc s => acc ++ sep ++ s) b := by
  induction rest generalizing b with
  | nil => rfl
  | cons x xs ih =>
    have e : a ++ b ++ sep ++ x = a ++ (b ++ sep ++ x) := by simp [String.append_assoc]
    simp only [List.foldl_cons]
    rw [e]
    exact ih _

theorem join_eq_joinWithSpaces (args : List String) : Join args " " = joinWithSpaces args := by
  induction args with
  | nil => rfl
  | cons a rest ih =>
    cases rest with
    | nil => rfl
    | cons b rest2 =>
      have e : Join (b :: rest2) " " = rest2.foldl (fun acc s => acc ++ " " ++ s) b := by
        cases rest2 <;> rfl
      rw [e] at ih
      show (b :: rest2).foldl (fun acc s => acc ++ " " ++ s) a = a ++ " " ++ joinWithSpaces (b :: rest2)
      rw [← ih, List.foldl_cons, join_spaces_aux]


/-- Claim C7: for a non-empty list of positional arguments, the content `main` passes to the
engine is the arguments in order with exactly one space between each consecutive pair (a
single argument unchanged). `Join` computes that string and every engine construction of
the run carries it. Whenever `parsePage` returns a page `pg`, the run is decided by the
engine's answer to `NewWithPage (joinWithSpaces args) Highest pg`: an error of that call is
what `main` prints before exiting with status 1, a symbol of that call is what text-art
mode renders, and the run is the run with an engine whose constructor gives that answer to
every call. -/
theorem main_content_joined {σ κ : Type} (E : Engine σ κ) (os : OS) (f : Flags)
    (args : List String) (h : args ≠ []) :
    Join args " " = joinWithSpaces args
      ∧ (∀ a, Join [a] " " = a)
      ∧ (∀ c lv pg, Event.newWithPage c lv pg ∈ (main E os f args).trace →
          c = joinWithSpaces args)
      ∧ (∀ pg, parsePage f.page = Except.ok pg →
          Event.newWithPage (joinWithSpaces args) RecoveryLevel.Highest pg
            ∈ (main E os f args).trace)
      ∧ (∀ pg e, parsePage f.page = Except.ok pg →
          E.NewWithPage (joinWithSpaces args) RecoveryLevel.Highest pg = Except.error e →
          main E os f args =
            ⟨[Event.parsePage f.page,
                Event.newWithPage (joinWithSpaces args) RecoveryLevel.Highest pg,
                Event.stderr (e ++ "\n")],
              Termination.exit 1⟩)
      ∧ (∀ pg q, parsePage f.page = Except.ok pg →
          E.NewWithPage (joinWithSpaces args) RecoveryLevel.Highest pg = Except.ok q →
          f.textArt = true →
          main E os f args =
            ⟨[Event.parsePage f.page,
                Event.newWithPage (joinWithSpaces args) RecoveryLevel.Highest pg,
                Event.toString f.negative, Event.println (E.ToString q f.negative)],
              Termination.returned⟩)
      ∧ (∀ pg, parsePage f.page = Except.ok pg →
          main E os f args =
            main ⟨fun _ _ _ => E.NewWithPage (joinWithSpaces args) RecoveryLevel.Highest pg,
              E.ToString, E.PNG⟩ os f args) := by
  have hlen : args.length ≠ 0 := by simpa using h
  have hj := join_eq_joinWithSpaces args
  refine ⟨hj, fun a => rfl, ?_, ?_, ?_, ?_, ?_⟩
  · intro c lv pg hmem
    simp only [main, hlen, if_false, hj, Run.after, checkError] at hmem
    split at hmem
    · simp at hmem
    · split at hmem
      · simp at hmem; exact hmem.1
      · split at hmem
        · simp at hmem; exact hmem.1
        · split at hmem
          · simp at hmem; exact hmem.1
          · split at hmem
            · simp at hmem; exact hmem.1
            · split at hmem <;> simp at hmem <;> exact hmem.1
  · intro pg hp
    simp [main, hlen, hj, hp, Run.after]
  · intro pg e hp he
    simp [main, hlen, hj, hp, he, checkError, Run.after]
  · intro pg q hp hq ht
    simp [main, hlen, hj, hp, hq, ht, checkError, Run.after]
  · intro pg hp
    simp only [main, hlen, if_false, hj, hp]

/-- Witness of C7: the recording engine, whose text art is the content it was given, is
handed `hello world` for the arguments `hello` and `world`. -/
theorem main_content_joined_witness :
    Join ["hello", "world"] " " = "hello world"
      ∧ main recordingEngine failingOS ⟨"", 256, true, false, ""⟩ ["hello", "world"] =
        ⟨[Event.parsePage "", Event.newWithPage "hello world" RecoveryLevel.Highest none,
            Event.toString false, Event.println "hello world"],
          Termination.returned⟩ :=
  ⟨(main_content_joined recordingEngine failingOS ⟨"", 256, true, false, ""⟩
      ["hello", "world"] (by decide)).1,
    (main_content_joined recordingEngine failingOS ⟨"", 256, true, false, ""⟩
      ["hello", "world"] (by decide)).2.2.2.2.2.1 none
      ⟨0, 255, ("hello world", RecoveryLevel.Highest, none)⟩ (by decide) rfl rfl⟩

/-- Claim C8: with `-t` set, at least one positional argument and a successful engine
construction, whatever `-o`, `-s` and `-i`, `main` prints the engine's text art (rendered with
the `-i` value) and a newline on standard output and returns; no event of the PNG path
(rasterization, writing bytes, creating a file) occurs. -/
theorem main_textArt {σ κ : Type} (E : Engine σ κ) (os : OS) (f : Flags) (args : List String)
    (pg : Option Page) (q : Symbol σ κ) (hargs : args ≠ []) (ht : f.textArt = true)
    (hp : parsePage f.page = Except.ok pg)
    (hq : E.NewWithPage (Join args " ") RecoveryLevel.Highest pg = Except.ok q) :
    main E os f args =
        ⟨[Event.parsePage f.page, Event.newWithPage (Join args " ") RecoveryLevel.Highest pg,
            Event.toString f.negative, Event.println (E.ToString q f.negative)],
          Termination.returned⟩
      ∧ ∀ e ∈ (main E os f args).trace, e.onPngPath = false := by
  have hlen : args.length ≠ 0 := by simpa using hargs
  have h : main E os f args =
      ⟨[Event.parsePage f.page, Event.newWithPage (Join args " ") RecoveryLevel.Highest pg,
          Event.toString f.negative, Event.println (E.ToString q f.negative)],
        Termination.returned⟩ := by
    simp [main, hlen, hp, hq, ht, checkError, Run.after]
  refine ⟨h, ?_⟩
  rw [h]
  intro e he
  simp at he
  rcases he with rfl | rfl | rfl | rfl <;> rfl

/-- Witness of C8: a text-art run with an output prefix, a size and the invert flag set. -/
theorem main_textArt_witness :
    main sampleEngine failingOS ⟨"out", 64, true, true, "2/3:0x11"⟩ ["hello", "world"] =
      ⟨[Event.parsePage "2/3:0x11",
          Event.newWithPage "hello world" RecoveryLevel.Highest (some ⟨1, 2, 17⟩),
          Event.toString true, Event.println "# #"],
        Termination.returned⟩ :=
  (main_textArt sampleEngine failingOS ⟨"out", 64, true, true, "2/3:0x11"⟩ ["hello", "world"]
    (some ⟨1, 2, 17⟩) ⟨0, 255, ()⟩ (by decide) rfl (by decide) rfl).1

/-- Counterexample to C6: on the sample operating system every write returns an error
(standard output is a full device); the write to standard output and the write to the
created file both fail, and both runs end with `main` returning, exit status 0. -/
theorem main_write_failure_not_fatal :
    main sampleEngine failingOS ⟨"", 256, false, false, ""⟩ ["a"] =
        ⟨[Event.parsePage "", Event.newWithPage "a" RecoveryLevel.Highest none, Event.png 256,
            Event.stdoutWrite [0, 255, 256]
              (StdoutAnswer.failed "write /dev/stdout: no space left on device")],
          Termination.returned⟩
      ∧ (main sampleEngine failingOS ⟨"", 256, false, false, ""⟩ ["a"]).term.status = 0
      ∧ main sampleEngine failingOS ⟨"out", 256, false, false, ""⟩ ["a"] =
        ⟨[Event.parsePage "", Event.newWithPage "a" RecoveryLevel.Highest none, Event.png 256,
            Event.create "out.png" none,
            Event.fileWrite [0, 255, 256] (some "write out.png: no space left on device"),
            Event.fileClose],
          Termination.returned⟩
      ∧ (main sampleEngine failingOS ⟨"out", 256, false, false, ""⟩ ["a"]).term.status = 0 := by
  decide

/-- Claim C6, amended: on the PNG output path a failure to create the output file is fatal
(the error and a newline go to the error stream, exit status 1). An error returned by
writing the PNG bytes, to standard output or to the created file, is not examined: `main`
returns, exit status 0, although the write failed. A write to standard output on a broken
pipe returns nothing to `main`: the process dies of SIGPIPE, status 141. -/
theorem main_png_output {σ κ : Type} (E : Engine σ κ) (os : OS) (f : Flags)
    (args : List String) (pg : Option Page) (q : Symbol σ κ) (png : List Nat)
    (hargs : args ≠ []) (ht : f.textArt = false) (hp : parsePage f.page = Except.ok pg)
    (hq : E.NewWithPage (Join args " ") RecoveryLevel.Highest pg = Except.ok q)
    (hpng : E.PNG (if f.negative then ⟨q.BackgroundColor, q.ForegroundColor, q.sym⟩ else q)
      f.size = Except.ok png) :
    (f.outFile = "" → os.stdoutWrite png ≠ StdoutAnswer.brokenPipe →
        main E os f args =
            ⟨[Event.parsePage f.page,
                Event.newWithPage (Join args " ") RecoveryLevel.Highest pg,
                Event.png f.size, Event.stdoutWrite png (os.stdoutWrite png)],
              Termination.returned⟩
          ∧ (main E os f args).term.status = 0)
      ∧ (f.outFile = "" → os.stdoutWrite png = StdoutAnswer.brokenPipe →
        main E os f args =
            ⟨[Event.parsePage f.page,
                Event.newWithPage (Join args " ") RecoveryLevel.Highest pg,
                Event.png f.size, Event.stdoutWrite png StdoutAnswer.brokenPipe],
              Termination.killed SIGPIPE⟩
          ∧ (main E os f args).term.status = 141)
      ∧ (f.outFile ≠ "" → ∀ e, os.create (f.outFile ++ ".png") = Except.error e →
        main E os f args =
            ⟨[Event.parsePage f.page,
                Event.newWithPage (Join args " ") RecoveryLevel.Highest pg,
                Event.png f.size, Event.create (f.outFile ++ ".png") (some e),
                Event.stderr (e ++ "\n")],
              Termination.exit 1⟩
          ∧ (main E os f args).term.status = 1)
      ∧ (f.outFile ≠ "" → ∀ fh, os.create (f.outFile ++ ".png") = Except.ok fh →
        main E os f args =
            ⟨[Event.parsePage f.page,
                Event.newWithPage (Join args " ") RecoveryLevel.Highest pg,
                Event.png f.size, Event.create (f.outFile ++ ".png") none,
                Event.fileWrite png (os.fileWrite fh png), Event.fileClose],
              Termination.returned⟩
          ∧ (main E os f args).term.status = 0) := by
  have hlen : args.length ≠ 0 := by simpa using hargs
  refine ⟨?_, ?_, ?_, ?_⟩
  · intro ho hw
    have h : main E os f args =
        ⟨[Event.parsePage f.page, Event.newWithPage (Join args " ") RecoveryLevel.Highest pg,
            Event.png f.size, Event.stdoutWrite png (os.stdoutWrite png)],
          Termination.returned⟩ := by
      simp [main, hlen, hp, hq, ht, hpng, ho, hw, checkError, Run.after]
    exact ⟨h, by rw [h]; rfl⟩
  · intro ho hw
    have h : main E os f args =
        ⟨[Event.parsePage f.page, Event.newWithPage (Join args " ") RecoveryLevel.Highest pg,
            Event.png f.size, Event.stdoutWrite png StdoutAnswer.brokenPipe],
          Termination.killed SIGPIPE⟩ := by
      simp [main, hlen, hp, hq, ht, hpng, ho, hw, checkError, Run.after]
    exact ⟨h, by rw [h]; rfl⟩
  · intro ho e he
    have h : main E os f args =
        ⟨[Event.parsePage f.page, Event.newWithPage (Join args " ") RecoveryLevel.Highest pg,
            Event.png f.size, Event.create (f.outFile ++ ".png") (some e),
            Event.stderr (e ++ "\n")],
          Termination.exit 1⟩ := by
      simp [main, hlen, hp, hq, ht, hpng, ho, he, checkError, Run.after]
    exact ⟨h, by rw [h]; rfl⟩
  · intro ho fh hfh
    have h : main E os f args =
        ⟨[Event.parsePage f.page, Event.newWithPage (Join args " ") RecoveryLevel.Highest pg,
            Event.png f.size, Event.create (f.outFile ++ ".png") none,
            Event.fileWrite png (os.fileWrite fh png), Event.fileClose],
          Termination.returned⟩ := by
      simp [main, hlen, hp, hq, ht, hpng, ho, hfh, checkError, Run.after]
    exact ⟨h, by rw [h]; rfl⟩

/-- Witness of the amended C6: the creation of `ro/out.png` is refused and the run exits with
status 1; on a standard output with no reader the run dies of SIGPIPE, status 141. -/
theorem main_png_output_witness :
    main sampleEngine failingOS ⟨"ro/out", 256, false, false, ""⟩ ["a"] =
        ⟨[Event.parsePage "", Event.newWithPage "a" RecoveryLevel.Highest none, Event.png 256,
            Event.create "ro/out.png" (some "open ro/out.png: permission denied"),
            Event.stderr "open ro/out.png: permission denied\n"],
          Termination.exit 1⟩
      ∧ (main sampleEngine closedPipeOS ⟨"", 256, false, false, ""⟩ ["a"]).term.status = 141 :=
  ⟨((main_png_output sampleEngine failingOS ⟨"ro/out", 256, false, false, ""⟩ ["a"] none
      ⟨0, 255, ()⟩ [0, 255, 256] (by decide) rfl (by decide) rfl rfl).2.2.1 (by decide)
      "open ro/out.png: permission denied" (by decide)).1,
    ((main_png_output sampleEngine closedPipeOS ⟨"", 256, false, false, ""⟩ ["a"] none
      ⟨0, 255, ()⟩ [0, 255, 256] (by decide) rfl (by decide) rfl rfl).2.1 rfl rfl).2⟩

/-- Counterexample to C9: the pattern does match `2/3:256`, with 5 submatches, so `parsePage`
passes the grammar step; the abort is not the one of line 98. -/
theorem descriptor_256_matches :
    (FindStringSubmatch pageRe "2/3:256".data).length = 5
      ∧ parsePage "2/3:256" ≠ Except.error (invalidPage 98 "2/3:256") := by
  decide

/-- Claim C9, amended: `2/3:256` fully matches the grammar, its decimal-parity group being
`256` and its hex-parity group empty, and `parsePage` rejects it at the range check of the
decimal parity (line 121), where `ParseInt` returns 256 without error. -/
theorem descriptor_256_rejected_by_range :
    FindStringSubmatch pageRe "2/3:256".data
        = ["2/3:256".data, "2".data, "3".data, [], "256".data]
      ∧ Lang pageRe 0 "2/3:256".data []
      ∧ IsDescriptor "2/3:256".data "2".data "3".data "256".data
      ∧ ParseInt "256".data 10 64 = (256, none)
      ∧ parsePage "2/3:256" = Except.error (invalidPage 121 "2/3:256") :=
  ⟨by decide, (matches_iff_lang _).mp ⟨"2".data, "3".data, "256".data, by decide⟩, by decide,
    by decide, by decide⟩

/-- Claim C10: a string in the language of the anchored pattern has exactly 5 submatches,
exactly one of the hex-parity group and the decimal-parity group being non-empty; a string
outside it has 0 submatches; and `parsePage` never aborts from the default branch of the
parity switch (line 126). -/
theorem find_submatch_shape (arg : String) :
    (Lang pageRe 0 arg.data [] →
        (FindStringSubmatch pageRe arg.data).length = 5
          ∧ (((FindStringSubmatch pageRe arg.data).getD 3 [] ≠ []
                ∧ (FindStringSubmatch pageRe arg.data).getD 4 [] = [])
              ∨ ((FindStringSubmatch pageRe arg.data).getD 3 [] = []
                ∧ (FindStringSubmatch pageRe arg.data).getD 4 [] ≠ [])))
      ∧ (¬ Lang pageRe 0 arg.data [] → (FindStringSubmatch pageRe arg.data).length = 0)
      ∧ ∀ a, parsePage arg = Except.error a → a.line ≠ 126 := by
  rw [← matches_iff_lang]
  refine ⟨?_, ?_, ?_⟩
  · rintro ⟨cur, last, par, hd⟩
    rw [find_of_descriptor hd]
    refine ⟨rfl, ?_⟩
    rcases hexPart_decPart_cases hd.2.2.2 with ⟨h3, h4, -, -⟩ | ⟨h3, h4, -, -⟩
    · exact Or.inl ⟨by simpa using h3, by simpa using h4⟩
    · exact Or.inr ⟨by simpa using h3, by simpa using h4⟩
  · intro hm
    rcases find_nil_or_matches arg.data with hnil | hmatch
    · simp [hnil]
    · exact absurd hmatch hm
  · intro a ha
    by_cases he : arg = ""
    · subst he
      have : parsePage "" = Except.ok none := by decide
      rw [this] at ha
      cases ha
    have hlen := length_ne_zero arg he
    by_cases hm : MatchesGrammar arg.data
    · obtain ⟨cur, last, par, hd⟩ := hm
      rw [parsePage_of_descriptor hd] at ha
      split_ifs at ha <;> cases ha <;> simp [invalidPage]
    · rcases find_nil_or_matches arg.data with hnil | hmatch
      · simp [parsePage, hlen, hnil] at ha
        subst ha
        simp [invalidPage]
      · exact absurd hmatch hm

end QRCode
